import Mathlib

/-!
Verification of the text-sanitization pipeline of the resume-ai-pro repository.

The repository ships two near-duplicate scalar sanitizers named sanitizeForJson:
- a backend variant in supabase/functions/_shared/sanitize.ts, and
- a frontend variant (src/lib/sanitizeForJson) kept in part_003 of the sources,
plus a shared recursive structured sanitizer sanitizeObjectForJson.

Strings are modelled as lists of natural numbers, one entry per UTF-16 code
unit, exactly the units the JavaScript regexes operate on.  Code 92 is the
backslash and 117 is the letter u.  Each rewrite pass of the source is
translated as a left-to-right scan mirroring the semantics of
String.prototype.replace with a global regex: non-overlapping matches found
left to right, scanning resuming after each replacement, and advancing by one
unit where no match starts.
-/

/-- Character class of the control-character regex [\u0000-\u001F\u007F-\u009F]
used by both variants (sanitize.ts line 20, part_003 line 251). -/
def isCtrl (c : Nat) : Bool := decide (c ≤ 31) || (decide (127 ≤ c) && decide (c ≤ 159))

/-- Character class [0-9a-fA-F] from the frontend lookahead (part_003 line 243). -/
def isHex (c : Nat) : Bool :=
  (decide (48 ≤ c) && decide (c ≤ 57)) ||
  (decide (97 ≤ c) && decide (c ≤ 102)) ||
  (decide (65 ≤ c) && decide (c ≤ 70))

/-- One lowercase hexadecimal digit, as produced by Number.prototype.toString(16). -/
def toHexDigit (n : Nat) : Nat := if n < 10 then 48 + n else 87 + n

/-- Fueled digit expansion backing natToHex; the fuel only bounds recursion depth. -/
def natToHexAux : Nat → Nat → List Nat
  | 0, n => [toHexDigit (n % 16)]
  | fuel + 1, n =>
    if n < 16 then [toHexDigit n]
    else natToHexAux fuel (n / 16) ++ [toHexDigit (n % 16)]

/-- code.toString(16): minimal lowercase hexadecimal digits of a code unit. -/
def natToHex (n : Nat) : List Nat := natToHexAux n n

/-- code.toString(16).padStart(4, the digit zero), from both control-character
steps (sanitize.ts line 21, part_003 line 252). -/
def hex4 (c : Nat) : List Nat := List.replicate (4 - (natToHex c).length) 48 ++ natToHex c

/-- The control-character pass shared verbatim by both variants: replace each
code unit in 0x00-0x1F or 0x7F-0x9F by backslash, u, and its 4-digit lowercase
hex rendering (sanitize.ts lines 20-23, part_003 lines 251-254). -/
def escCtrl : List Nat → List Nat
  | [] => []
  | c :: rest => if isCtrl c then 92 :: 117 :: hex4 c ++ escCtrl rest else c :: escCtrl rest

/-- Backend pass 1, input.replace over the regex matching a single backslash,
replacement two backslashes (sanitize.ts line 17): every backslash is doubled. -/
def escBackslashes : List Nat → List Nat
  | [] => []
  | c :: rest => if c = 92 then 92 :: 92 :: escBackslashes rest else c :: escBackslashes rest

/-- The frontend lookahead test: do the next four code units exist and all lie
in [0-9a-fA-F]?  (part_003 line 243). -/
def fourHexAfter : List Nat → Bool
  | a :: b :: c :: d :: _ => isHex a && isHex b && isHex c && isHex d
  | _ => false

/-- Frontend step 1 (part_003 line 243): global replace of backslash-u not
followed by exactly four hex digits, replacement backslash-backslash-u.  A
backslash-u pair whose lookahead finds four hex digits is not a match; the
scan then continues from the u, and since u cannot begin a match the scan
resumes after it. -/
def step1 : List Nat → List Nat
  | [] => []
  | [c] => [c]
  | c :: d :: rest =>
    if c = 92 ∧ d = 117 then
      if fourHexAfter rest then 92 :: 117 :: step1 rest
      else 92 :: 92 :: 117 :: step1 rest
    else c :: step1 (d :: rest)

/-- Frontend step 2 (part_003 line 247): global replace of a backslash not
followed by another backslash, replacement two backslashes.  A backslash whose
successor is a backslash is not a match and the scan advances one unit; a
final backslash matches because the negative lookahead succeeds at the end. -/
def step2 : List Nat → List Nat
  | [] => []
  | [c] => if c = 92 then [92, 92] else [c]
  | c :: d :: rest =>
    if c = 92 then
      if d = 92 then 92 :: step2 (d :: rest)
      else 92 :: 92 :: step2 (d :: rest)
    else c :: step2 (d :: rest)

namespace Backend

/-- The backend scalar sanitizer on string input
(supabase/functions/_shared/sanitize.ts lines 13-26): double every backslash,
then escape control characters. -/
def sanitizeForJson (s : List Nat) : List Nat := escCtrl (escBackslashes s)

end Backend

namespace Frontend

/-- The frontend scalar sanitizer on string input (part_003 lines 238-257):
normalize malformed backslash-u sequences, then double backslashes not
followed by a backslash, then escape control characters. -/
def sanitizeForJson (s : List Nat) : List Nat := escCtrl (step2 (step1 s))

end Frontend

/-- The JavaScript values the structured sanitizer dispatches on: strings,
numbers, booleans, null, undefined, arrays and plain objects (an object is its
Object.entries list, keys in insertion order). -/
inductive JsValue : Type where
  | vstr : List Nat → JsValue
  | vnum : Int → JsValue
  | vbool : Bool → JsValue
  | vnull : JsValue
  | vundef : JsValue
  | varr : List JsValue → JsValue
  | vobj : List (List Nat × JsValue) → JsValue

mutual

/-- sanitizeObjectForJson (sanitize.ts lines 33-54, part_003 lines 264-285),
parameterized by the scalar sanitizer the defining module imports.  A string
hits the typeof-string branch; null, undefined, numbers and booleans fall
through the not-an-object guard unchanged; arrays map recursively; objects
rebuild each entry. -/
def sanitizeObjectForJson (f : List Nat → List Nat) : JsValue → JsValue
  | .vstr s => .vstr (f s)
  | .varr l => .varr (sanitizeArray f l)
  | .vobj kvs => .vobj (sanitizeEntries f kvs)
  | v => v

/-- obj.map over an array argument of sanitizeObjectForJson. -/
def sanitizeArray (f : List Nat → List Nat) : List JsValue → List JsValue
  | [] => []
  | v :: rest => sanitizeObjectForJson f v :: sanitizeArray f rest

/-- The for-of loop over Object.entries: a string value goes through the
scalar sanitizer, an object or array value recurses, anything else is copied;
the key is always kept as is. -/
def sanitizeEntries (f : List Nat → List Nat) :
    List (List Nat × JsValue) → List (List Nat × JsValue)
  | [] => []
  | (k, .vstr s) :: rest => (k, .vstr (f s)) :: sanitizeEntries f rest
  | (k, .varr l) :: rest => (k, .varr (sanitizeArray f l)) :: sanitizeEntries f rest
  | (k, .vobj kvs) :: rest => (k, .vobj (sanitizeEntries f kvs)) :: sanitizeEntries f rest
  | (k, v) :: rest => (k, v) :: sanitizeEntries f rest

end

namespace Backend

/-- The backend sanitizeForJson applied to an arbitrary JavaScript value: the
typeof-input guard at sanitize.ts line 14 returns every non-string unchanged. -/
def sanitizeForJsonValue : JsValue → JsValue
  | .vstr s => .vstr (sanitizeForJson s)
  | v => v

end Backend

namespace Frontend

/-- The frontend sanitizeForJson applied to an arbitrary JavaScript value: the
typeof-input guard at part_003 line 239 returns every non-string unchanged. -/
def sanitizeForJsonValue : JsValue → JsValue
  | .vstr s => .vstr (sanitizeForJson s)
  | v => v

end Frontend

/-- A string is safe to splice into a JSON string literal if a left-to-right
parse consumes every backslash as either one of an adjacent doubled pair or
the head of backslash-u-4-hex, and every unescaped code unit is outside the
control ranges 0x00-0x1F and 0x7F-0x9F. -/
def jsonSafe : List Nat → Bool
  | [] => true
  | c :: rest =>
    if c = 92 then
      match rest with
      | 92 :: rest2 => jsonSafe rest2
      | 117 :: a :: b :: d :: e :: rest2 =>
        isHex a && isHex b && isHex d && isHex e && jsonSafe rest2
      | _ => false
    else !isCtrl c && jsonSafe rest

/-! Character-class facts. -/

theorem isCtrl_92 : isCtrl 92 = false := by decide

theorem isCtrl_117 : isCtrl 117 = false := by decide

theorem isCtrl_lt160 {c : Nat} (h : isCtrl c = true) : c < 160 := by
  simp [isCtrl] at h; omega

theorem isCtrl_ne92 {c : Nat} (h : isCtrl c = true) : c ≠ 92 := by
  simp [isCtrl] at h; omega

theorem isCtrl_ne117 {c : Nat} (h : isCtrl c = true) : c ≠ 117 := by
  simp [isCtrl] at h; omega

theorem isCtrl_not_hex {c : Nat} (h : isCtrl c = true) : isHex c = false := by
  simp [isCtrl] at h; simp [isHex]; omega

theorem isHex_not_ctrl {c : Nat} (h : isHex c = true) : isCtrl c = false := by
  simp [isHex] at h; simp [isCtrl]; omega

theorem toHexDigit_isHex {n : Nat} (h : n < 16) : isHex (toHexDigit n) = true := by
  unfold toHexDigit
  split <;> simp [isHex] <;> omega

/-! The padded four-digit hex rendering of a small code unit. -/

theorem natToHexAux_small : ∀ (fuel m : Nat), m < 16 → natToHexAux fuel m = [toHexDigit m]
  | 0, m, h => by simp [natToHexAux, Nat.mod_eq_of_lt h]
  | fuel + 1, m, h => by simp [natToHexAux, h]

theorem natToHex_lt256 {c : Nat} (h : c < 256) :
    natToHex c = if c < 16 then [toHexDigit c] else [toHexDigit (c / 16), toHexDigit (c % 16)] := by
  unfold natToHex
  by_cases h16 : c < 16
  · rw [natToHexAux_small c c h16, if_pos h16]
  · obtain ⟨k, rfl⟩ : ∃ k, c = k + 1 := ⟨c - 1, by omega⟩
    rw [if_neg h16]
    show natToHexAux (k + 1) (k + 1) = _
    rw [natToHexAux]
    rw [if_neg h16, natToHexAux_small k ((k + 1) / 16) (by omega)]
    rfl

theorem hex4_lt256 {c : Nat} (h : c < 256) :
    hex4 c = [48, 48, toHexDigit (c / 16), toHexDigit (c % 16)] := by
  unfold hex4
  rw [natToHex_lt256 h]
  by_cases h16 : c < 16
  · rw [if_pos h16]
    have hd : c / 16 = 0 := Nat.div_eq_of_lt h16
    have hm : c % 16 = c := Nat.mod_eq_of_lt h16
    rw [hd, hm]
    show List.replicate 3 48 ++ [toHexDigit c] = _
    have : toHexDigit 0 = 48 := by decide
    rw [this]
    rfl
  · rw [if_neg h16]
    rfl

theorem hex4_isHex {c : Nat} (h : c < 256) : ∀ d ∈ hex4 c, isHex d = true := by
  rw [hex4_lt256 h]
  intro d hd
  simp only [List.mem_cons, List.not_mem_nil, or_false] at hd
  rcases hd with rfl | rfl | rfl | rfl
  · decide
  · decide
  · exact toHexDigit_isHex (by omega)
  · exact toHexDigit_isHex (by omega)

/-! Facts about the shared control-character pass. -/

theorem escCtrl_cons_ctrl {c : Nat} (t : List Nat) (h : isCtrl c = true) :
    escCtrl (c :: t) = 92 :: 117 :: hex4 c ++ escCtrl t := by
  simp [escCtrl, h]

theorem escCtrl_cons_not {c : Nat} (t : List Nat) (h : isCtrl c = false) :
    escCtrl (c :: t) = c :: escCtrl t := by
  simp [escCtrl, h]

theorem escCtrl_append (a b : List Nat) : escCtrl (a ++ b) = escCtrl a ++ escCtrl b := by
  induction a with
  | nil => rfl
  | cons c t ih =>
    cases hc : isCtrl c with
    | true =>
      rw [List.cons_append, escCtrl_cons_ctrl _ hc, escCtrl_cons_ctrl _ hc, ih]
      simp
    | false =>
      rw [List.cons_append, escCtrl_cons_not _ hc, escCtrl_cons_not _ hc, ih, List.cons_append]

theorem escCtrl_id {t : List Nat} (h : ∀ c ∈ t, isCtrl c = false) : escCtrl t = t := by
  induction t with
  | nil => rfl
  | cons c t ih =>
    rw [escCtrl_cons_not _ (h c (List.mem_cons_self c t)),
      ih fun d hd => h d (List.mem_cons_of_mem c hd)]

theorem escCtrl_mem {c : Nat} {t : List Nat} (hm : c ∈ t) (hc : isCtrl c = false) :
    c ∈ escCtrl t := by
  induction t with
  | nil => cases hm
  | cons d t ih =>
    cases hd : isCtrl d with
    | true =>
      rw [escCtrl_cons_ctrl _ hd]
      rcases List.mem_cons.1 hm with rfl | hm2
      · rw [hc] at hd; cases hd
      · simp [ih hm2]
    | false =>
      rw [escCtrl_cons_not _ hd]
      rcases List.mem_cons.1 hm with rfl | hm2
      · exact List.mem_cons_self _ _
      · exact List.mem_cons_of_mem _ (ih hm2)

theorem escCtrl_mem92 {c : Nat} {t : List Nat} (hm : c ∈ t) (hc : isCtrl c = true) :
    92 ∈ escCtrl t := by
  induction t with
  | nil => cases hm
  | cons d t ih =>
    cases hd : isCtrl d with
    | true => rw [escCtrl_cons_ctrl _ hd]; exact List.mem_cons_self _ _
    | false =>
      rw [escCtrl_cons_not _ hd]
      rcases List.mem_cons.1 hm with rfl | hm2
      · rw [hc] at hd; cases hd
      · exact List.mem_cons_of_mem _ (ih hm2)

theorem escCtrl_noctrl (t : List Nat) : ∀ c ∈ escCtrl t, isCtrl c = false := by
  induction t with
  | nil => intro c hc; cases hc
  | cons d t ih =>
    intro c hc
    cases hd : isCtrl d with
    | true =>
      rw [escCtrl_cons_ctrl _ hd] at hc
      have h160 := isCtrl_lt160 hd
      rcases List.mem_cons.1 hc with rfl | hc2
      · decide
      rcases List.mem_cons.1 hc2 with rfl | hc3
      · decide
      rcases List.mem_append.1 hc3 with hc4 | hc5
      · exact isHex_not_ctrl (hex4_isHex (by omega) _ hc4)
      · exact ih _ hc5
    | false =>
      rw [escCtrl_cons_not _ hd] at hc
      rcases List.mem_cons.1 hc with rfl | hc2
      · exact hd
      · exact ih _ hc2

theorem escCtrl_len_ge (t : List Nat) : t.length ≤ (escCtrl t).length := by
  induction t with
  | nil => exact Nat.le_refl _
  | cons d t ih =>
    cases hd : isCtrl d with
    | true => rw [escCtrl_cons_ctrl _ hd]; simp; omega
    | false => rw [escCtrl_cons_not _ hd]; simpa using ih

/-! Facts about the backend backslash-doubling pass. -/

theorem escBackslashes_cons_92 (t : List Nat) :
    escBackslashes (92 :: t) = 92 :: 92 :: escBackslashes t := by
  simp [escBackslashes]

theorem escBackslashes_cons_ne {c : Nat} (t : List Nat) (h : c ≠ 92) :
    escBackslashes (c :: t) = c :: escBackslashes t := by
  simp [escBackslashes, h]

theorem escBackslashes_append (a b : List Nat) :
    escBackslashes (a ++ b) = escBackslashes a ++ escBackslashes b := by
  induction a with
  | nil => rfl
  | cons c t ih =>
    by_cases hc : c = 92
    · subst hc
      rw [List.cons_append, escBackslashes_cons_92, escBackslashes_cons_92, ih]
      rfl
    · rw [List.cons_append, escBackslashes_cons_ne _ hc, escBackslashes_cons_ne _ hc, ih,
        List.cons_append]

theorem escBackslashes_id {t : List Nat} (h : ∀ c ∈ t, c ≠ 92) : escBackslashes t = t := by
  induction t with
  | nil => rfl
  | cons c t ih =>
    rw [escBackslashes_cons_ne _ (h c (List.mem_cons_self c t)),
      ih fun d hd => h d (List.mem_cons_of_mem c hd)]

theorem escBackslashes_mem {c : Nat} {t : List Nat} (hm : c ∈ t) : c ∈ escBackslashes t := by
  induction t with
  | nil => cases hm
  | cons d t ih =>
    by_cases hd : d = 92
    · subst hd
      rw [escBackslashes_cons_92]
      rcases List.mem_cons.1 hm with rfl | hm2
      · exact List.mem_cons_self _ _
      · exact List.mem_cons_of_mem _ (List.mem_cons_of_mem _ (ih hm2))
    · rw [escBackslashes_cons_ne _ hd]
      rcases List.mem_cons.1 hm with rfl | hm2
      · exact List.mem_cons_self _ _
      · exact List.mem_cons_of_mem _ (ih hm2)

theorem escBackslashes_len_ge (t : List Nat) : t.length ≤ (escBackslashes t).length := by
  induction t with
  | nil => exact Nat.le_refl _
  | cons c t ih =>
    by_cases hc : c = 92
    · subst hc; rw [escBackslashes_cons_92]; simp; omega
    · rw [escBackslashes_cons_ne _ hc]; simpa using ih

theorem escBackslashes_len_gt {t : List Nat} (h : 92 ∈ t) :
    t.length < (escBackslashes t).length := by
  induction t with
  | nil => cases h
  | cons c t ih =>
    by_cases hc : c = 92
    · subst hc
      rw [escBackslashes_cons_92]
      have := escBackslashes_len_ge t
      simp; omega
    · rcases List.mem_cons.1 h with rfl | hm2
      · exact absurd rfl hc
      · rw [escBackslashes_cons_ne _ hc]
        simpa using ih hm2

/-! Facts about the frontend malformed-escape pass. -/

theorem step1_nil : step1 [] = [] := rfl

theorem step2_nil : step2 [] = [] := rfl

theorem step1_cons_ne {c : Nat} (h : c ≠ 92) : ∀ t, step1 (c :: t) = c :: step1 t
  | [] => rfl
  | d :: t => by simp [step1, h]

theorem step1_92_ne117 {d : Nat} (h : d ≠ 117) (t : List Nat) :
    step1 (92 :: d :: t) = 92 :: step1 (d :: t) := by
  simp [step1, h]

theorem step1_92u_hex {t : List Nat} (h : fourHexAfter t = true) :
    step1 (92 :: 117 :: t) = 92 :: 117 :: step1 t := by
  simp [step1, h]

theorem step1_92u_not {t : List Nat} (h : fourHexAfter t = false) :
    step1 (92 :: 117 :: t) = 92 :: 92 :: 117 :: step1 t := by
  simp [step1, h]

theorem step1_id {t : List Nat} (h : ∀ c ∈ t, c ≠ 92) : step1 t = t := by
  induction t with
  | nil => rfl
  | cons c t ih =>
    rw [step1_cons_ne (h c (List.mem_cons_self c t)),
      ih fun d hd => h d (List.mem_cons_of_mem c hd)]

theorem step1_len_ge (t : List Nat) : t.length ≤ (step1 t).length := by
  induction t using step1.induct with
  | case1 => simp [step1]
  | case2 c => simp [step1]
  | case3 c d rest h1 h2 ih =>
    obtain ⟨rfl, rfl⟩ := h1
    rw [step1_92u_hex h2]
    simp
    omega
  | case4 c d rest h1 h2 ih =>
    obtain ⟨rfl, rfl⟩ := h1
    rw [step1_92u_not (by simpa using h2)]
    simp
    omega
  | case5 c d rest h1 ih =>
    have hc : c ≠ 92 ∨ d ≠ 117 := by
      by_cases h92 : c = 92
      · right; intro h117; exact h1 ⟨h92, h117⟩
      · left; exact h92
    rcases hc with hc | hc
    · rw [step1_cons_ne hc]
      simp at *
      omega
    · by_cases h92 : c = 92
      · subst h92
        rw [step1_92_ne117 hc]
        simp at *
        omega
      · rw [step1_cons_ne h92]
        simp at *
        omega

theorem step1_mem {c : Nat} {t : List Nat} (hm : c ∈ t) : c ∈ step1 t := by
  induction t using step1.induct with
  | case1 => cases hm
  | case2 e => simpa [step1] using hm
  | case3 e d rest h1 h2 ih =>
    obtain ⟨rfl, rfl⟩ := h1
    rw [step1_92u_hex h2]
    rcases List.mem_cons.1 hm with rfl | hm2
    · exact List.mem_cons_self _ _
    rcases List.mem_cons.1 hm2 with rfl | hm3
    · exact List.mem_cons_of_mem _ (List.mem_cons_self _ _)
    · exact List.mem_cons_of_mem _ (List.mem_cons_of_mem _ (ih hm3))
  | case4 e d rest h1 h2 ih =>
    obtain ⟨rfl, rfl⟩ := h1
    rw [step1_92u_not (by simpa using h2)]
    rcases List.mem_cons.1 hm with rfl | hm2
    · exact List.mem_cons_self _ _
    rcases List.mem_cons.1 hm2 with rfl | hm3
    · exact List.mem_cons_of_mem _ (List.mem_cons_of_mem _ (List.mem_cons_self _ _))
    · exact List.mem_cons_of_mem _ (List.mem_cons_of_mem _ (List.mem_cons_of_mem _ (ih hm3)))
  | case5 e d rest h1 ih =>
    by_cases h92 : e = 92
    · subst h92
      have h117 : d ≠ 117 := fun hd => h1 ⟨rfl, hd⟩
      rw [step1_92_ne117 h117]
      rcases List.mem_cons.1 hm with rfl | hm2
      · exact List.mem_cons_self _ _
      · exact List.mem_cons_of_mem _ (ih hm2)
    · rw [step1_cons_ne h92]
      rcases List.mem_cons.1 hm with rfl | hm2
      · exact List.mem_cons_self _ _
      · exact List.mem_cons_of_mem _ (ih hm2)

theorem fourHexAfter_append {c : Nat} (hc : isHex c = false) (l post : List Nat) :
    fourHexAfter (l ++ c :: post) = fourHexAfter l := by
  rcases l with _ | ⟨a, _ | ⟨b, _ | ⟨d, _ | ⟨e, rest⟩⟩⟩⟩
  · rcases post with _ | ⟨p, _ | ⟨q, _ | ⟨r, s⟩⟩⟩ <;> simp [fourHexAfter, hc]
  · rcases post with _ | ⟨p, _ | ⟨q, s⟩⟩ <;> simp [fourHexAfter, hc]
  · rcases post with _ | ⟨p, s⟩ <;> simp [fourHexAfter, hc]
  · simp [fourHexAfter, hc]
  · simp [fourHexAfter]

theorem step1_split_aux {c : Nat} (h92 : c ≠ 92) (h117 : c ≠ 117) (hhex : isHex c = false) :
    ∀ (n : Nat) (pre : List Nat), pre.length ≤ n → ∀ post,
      step1 (pre ++ c :: post) = step1 pre ++ c :: step1 post := by
  intro n
  induction n with
  | zero =>
    intro pre hlen post
    have hp : pre = [] := List.length_eq_zero.1 (Nat.le_zero.1 hlen)
    subst hp
    simp [step1_cons_ne h92, step1_nil]
  | succ n ih =>
    intro pre hlen post
    rcases pre with _ | ⟨a, pre1⟩
    · simp [step1_cons_ne h92, step1_nil]
    by_cases ha : a = 92
    · subst ha
      rcases pre1 with _ | ⟨b, pre2⟩
      · rw [List.cons_append, List.nil_append, step1_92_ne117 h117, step1_cons_ne h92]
        rfl
      · by_cases hb : b = 117
        · subst hb
          have hlen2 : pre2.length ≤ n := by simp at hlen; omega
          have h4eq := fourHexAfter_append hhex pre2 post
          rw [List.cons_append, List.cons_append]
          cases h4 : fourHexAfter pre2 with
          | true =>
            rw [step1_92u_hex (by rw [h4eq]; exact h4), ih pre2 hlen2 post,
              step1_92u_hex h4]
            rfl
          | false =>
            rw [step1_92u_not (by rw [h4eq]; exact h4), ih pre2 hlen2 post,
              step1_92u_not h4]
            rfl
        · have hlen2 : (b :: pre2).length ≤ n := by simp at hlen; simp; omega
          rw [List.cons_append, List.cons_append, step1_92_ne117 hb, ← List.cons_append,
            ih (b :: pre2) hlen2 post, step1_92_ne117 hb]
          rfl
    · have hlen2 : pre1.length ≤ n := by simp at hlen; omega
      rw [List.cons_append, step1_cons_ne ha, ih pre1 hlen2 post, step1_cons_ne ha,
        List.cons_append]

theorem step1_split {c : Nat} (h92 : c ≠ 92) (h117 : c ≠ 117) (hhex : isHex c = false)
    (pre post : List Nat) :
    step1 (pre ++ c :: post) = step1 pre ++ c :: step1 post :=
  step1_split_aux h92 h117 hhex pre.length pre (Nat.le_refl _) post

/-! Facts about the frontend backslash pass. -/

theorem step2_cons_ne {c : Nat} (h : c ≠ 92) : ∀ t, step2 (c :: t) = c :: step2 t
  | [] => by simp [step2, h]
  | d :: t => by simp [step2, h]

theorem step2_92_nil : step2 [92] = [92, 92] := rfl

theorem step2_92_92 (t : List Nat) : step2 (92 :: 92 :: t) = 92 :: step2 (92 :: t) := by
  simp [step2]

theorem step2_92_ne {d : Nat} (h : d ≠ 92) (t : List Nat) :
    step2 (92 :: d :: t) = 92 :: 92 :: step2 (d :: t) := by
  simp [step2, h]

theorem step2_id {t : List Nat} (h : ∀ c ∈ t, c ≠ 92) : step2 t = t := by
  induction t with
  | nil => rfl
  | cons c t ih =>
    rw [step2_cons_ne (h c (List.mem_cons_self c t)),
      ih fun d hd => h d (List.mem_cons_of_mem c hd)]

theorem step2_len_ge (t : List Nat) : t.length ≤ (step2 t).length := by
  induction t with
  | nil => exact Nat.le_refl _
  | cons c t ih =>
    rcases t with _ | ⟨d, t2⟩
    · by_cases hc : c = 92
      · subst hc; simp [step2]
      · simp [step2, hc]
    by_cases hc : c = 92
    · subst hc
      by_cases hd : d = 92
      · subst hd; rw [step2_92_92]; simp at *; omega
      · rw [step2_92_ne hd]; simp at *; omega
    · rw [step2_cons_ne hc]; simp at *; omega

theorem step2_len_gt {t : List Nat} (h : 92 ∈ t) : t.length < (step2 t).length := by
  induction t with
  | nil => cases h
  | cons c t ih =>
    rcases t with _ | ⟨d, t2⟩
    · rcases List.mem_singleton.1 h with rfl
      simp [step2]
    by_cases hc : c = 92
    · subst hc
      by_cases hd : d = 92
      · subst hd
        rw [step2_92_92]
        have := ih (List.mem_cons_self 92 t2)
        simp at *
        omega
      · rw [step2_92_ne hd]
        have := step2_len_ge (d :: t2)
        simp at *
        omega
    · rcases List.mem_cons.1 h with rfl | hm2
      · exact absurd rfl hc
      · rw [step2_cons_ne hc]
        have := ih hm2
        simp at *
        omega

theorem step2_mem {c : Nat} {t : List Nat} (hm : c ∈ t) : c ∈ step2 t := by
  induction t with
  | nil => cases hm
  | cons a t ih =>
    rcases t with _ | ⟨d, t2⟩
    · rcases List.mem_singleton.1 hm with rfl
      by_cases hc : c = 92
      · subst hc; simp [step2]
      · simp [step2, hc]
    by_cases ha : a = 92
    · subst ha
      by_cases hd : d = 92
      · subst hd
        rw [step2_92_92]
        rcases List.mem_cons.1 hm with rfl | hm2
        · exact List.mem_cons_self _ _
        · exact List.mem_cons_of_mem _ (ih hm2)
      · rw [step2_92_ne hd]
        rcases List.mem_cons.1 hm with rfl | hm2
        · exact List.mem_cons_self _ _
        · exact List.mem_cons_of_mem _ (List.mem_cons_of_mem _ (ih hm2))
    · rw [step2_cons_ne ha]
      rcases List.mem_cons.1 hm with rfl | hm2
      · exact List.mem_cons_self _ _
      · exact List.mem_cons_of_mem _ (ih hm2)

theorem step2_split {c : Nat} (hc : c ≠ 92) (pre post : List Nat) :
    step2 (pre ++ c :: post) = step2 pre ++ c :: step2 post := by
  induction pre with
  | nil => simp [step2_cons_ne hc, step2_nil]
  | cons a pre1 ih =>
    by_cases ha : a = 92
    · subst ha
      rcases pre1 with _ | ⟨b, pre2⟩
      · rw [List.cons_append, List.nil_append, step2_92_ne hc, step2_cons_ne hc]
        rfl
      · by_cases hb : b = 92
        · subst hb
          rw [List.cons_append, List.cons_append, step2_92_92, ← List.cons_append, ih,
            step2_92_92]
          rfl
        · rw [List.cons_append, List.cons_append, step2_92_ne hb, ← List.cons_append, ih,
            step2_92_ne hb]
          rfl
    · rw [List.cons_append, step2_cons_ne ha, ih, step2_cons_ne ha, List.cons_append]

/-! Composite facts about the two scalar sanitizers. -/

theorem backend_id {s : List Nat} (h : ∀ c ∈ s, c ≠ 92 ∧ isCtrl c = false) :
    Backend.sanitizeForJson s = s := by
  unfold Backend.sanitizeForJson
  rw [escBackslashes_id fun c hc => (h c hc).1, escCtrl_id fun c hc => (h c hc).2]

theorem frontend_id {s : List Nat} (h : ∀ c ∈ s, c ≠ 92 ∧ isCtrl c = false) :
    Frontend.sanitizeForJson s = s := by
  unfold Frontend.sanitizeForJson
  rw [step1_id fun c hc => (h c hc).1, step2_id fun c hc => (h c hc).1,
    escCtrl_id fun c hc => (h c hc).2]

theorem backend_mem92 {s : List Nat} (h : ∃ c ∈ s, c = 92 ∨ isCtrl c = true) :
    92 ∈ Backend.sanitizeForJson s := by
  obtain ⟨c, hc, hdisj⟩ := h
  unfold Backend.sanitizeForJson
  rcases hdisj with rfl | hctrl
  · exact escCtrl_mem (escBackslashes_mem hc) isCtrl_92
  · exact escCtrl_mem92 (escBackslashes_mem hc) hctrl

theorem frontend_mem92 {s : List Nat} (h : ∃ c ∈ s, c = 92 ∨ isCtrl c = true) :
    92 ∈ Frontend.sanitizeForJson s := by
  obtain ⟨c, hc, hdisj⟩ := h
  unfold Frontend.sanitizeForJson
  rcases hdisj with rfl | hctrl
  · exact escCtrl_mem (step2_mem (step1_mem hc)) isCtrl_92
  · exact escCtrl_mem92 (step2_mem (step1_mem hc)) hctrl

theorem backend_len_gt {s : List Nat} (h : 92 ∈ s) :
    s.length < (Backend.sanitizeForJson s).length := by
  have h1 := escBackslashes_len_gt h
  have h2 := escCtrl_len_ge (escBackslashes s)
  unfold Backend.sanitizeForJson
  omega

theorem frontend_len_gt {s : List Nat} (h : 92 ∈ s) :
    s.length < (Frontend.sanitizeForJson s).length := by
  have h1 := step1_len_ge s
  have h2 := step2_len_gt (step1_mem h)
  have h3 := escCtrl_len_ge (step2 (step1 s))
  unfold Frontend.sanitizeForJson
  omega

/-- C4: neither variant is idempotent on inputs holding a backslash or a
control character: the second pass re-escapes the backslashes the first pass
inserted; on inputs with neither, one and two applications agree; and the
control-character step alone is idempotent on any sanitized output, which
holds no control character. -/
theorem c4_not_idempotent :
    (∀ s : List Nat, (∃ c ∈ s, c = 92 ∨ isCtrl c = true) →
      Backend.sanitizeForJson (Backend.sanitizeForJson s) ≠ Backend.sanitizeForJson s ∧
      Frontend.sanitizeForJson (Frontend.sanitizeForJson s) ≠ Frontend.sanitizeForJson s) ∧
    (∀ s : List Nat, (∀ c ∈ s, c ≠ 92 ∧ isCtrl c = false) →
      Backend.sanitizeForJson (Backend.sanitizeForJson s) = Backend.sanitizeForJson s ∧
      Frontend.sanitizeForJson (Frontend.sanitizeForJson s) = Frontend.sanitizeForJson s) ∧
    (∀ s : List Nat,
      escCtrl (Backend.sanitizeForJson s) = Backend.sanitizeForJson s ∧
      escCtrl (Frontend.sanitizeForJson s) = Frontend.sanitizeForJson s) := by
  refine ⟨?_, ?_, ?_⟩
  · intro s hbad
    constructor
    · intro heq
      have hlt := backend_len_gt (backend_mem92 hbad)
      rw [heq] at hlt
      exact Nat.lt_irrefl _ hlt
    · intro heq
      have hlt := frontend_len_gt (frontend_mem92 hbad)
      rw [heq] at hlt
      exact Nat.lt_irrefl _ hlt
  · intro s hgood
    rw [backend_id hgood, frontend_id hgood]
    exact ⟨backend_id hgood, frontend_id hgood⟩
  · intro s
    constructor
    · show escCtrl (escCtrl (escBackslashes s)) = _
      exact escCtrl_id (escCtrl_noctrl _)
    · show escCtrl (escCtrl (step2 (step1 s))) = _
      exact escCtrl_id (escCtrl_noctrl _)

theorem c4_not_idempotent_witness :
    ((∃ c ∈ ([92] : List Nat), c = 92 ∨ isCtrl c = true) ∧
      (Backend.sanitizeForJson (Backend.sanitizeForJson [92]) ≠ Backend.sanitizeForJson [92] ∧
        Frontend.sanitizeForJson (Frontend.sanitizeForJson [92]) ≠
          Frontend.sanitizeForJson [92])) ∧
    ((∀ c ∈ ([97] : List Nat), c ≠ 92 ∧ isCtrl c = false) ∧
      (Backend.sanitizeForJson (Backend.sanitizeForJson [97]) = Backend.sanitizeForJson [97] ∧
        Frontend.sanitizeForJson (Frontend.sanitizeForJson [97]) =
          Frontend.sanitizeForJson [97])) :=
  ⟨⟨by decide, c4_not_idempotent.1 [92] (by decide)⟩,
    ⟨by decide, c4_not_idempotent.2.1 [97] (by decide)⟩⟩

/-- C8: a string free of backslashes and of control characters is returned
exactly by both variants; multi-byte text passes through unchanged. -/
theorem c8_identity :
    ∀ s : List Nat, (∀ c ∈ s, c ≠ 92 ∧ isCtrl c = false) →
      Backend.sanitizeForJson s = s ∧ Frontend.sanitizeForJson s = s :=
  fun _ h => ⟨backend_id h, frontend_id h⟩

theorem c8_identity_witness :
    (∀ c ∈ ([20320, 22909, 19990, 30028, 233, 8721, 55357, 56395] : List Nat),
      c ≠ 92 ∧ isCtrl c = false) ∧
    (Backend.sanitizeForJson [20320, 22909, 19990, 30028, 233, 8721, 55357, 56395] =
        [20320, 22909, 19990, 30028, 233, 8721, 55357, 56395] ∧
      Frontend.sanitizeForJson [20320, 22909, 19990, 30028, 233, 8721, 55357, 56395] =
        [20320, 22909, 19990, 30028, 233, 8721, 55357, 56395]) :=
  ⟨by decide, c8_identity [20320, 22909, 19990, 30028, 233, 8721, 55357, 56395] (by decide)⟩

/-- C9: both variants are total functions in this embedding, and the
typeof-string guard returns null, undefined, numbers and booleans identically,
while the empty string maps to the empty string. -/
theorem c9_total_passthrough :
    Backend.sanitizeForJsonValue JsValue.vnull = JsValue.vnull ∧
    Backend.sanitizeForJsonValue JsValue.vundef = JsValue.vundef ∧
    Backend.sanitizeForJsonValue (JsValue.vnum 123) = JsValue.vnum 123 ∧
    Backend.sanitizeForJsonValue (JsValue.vbool true) = JsValue.vbool true ∧
    Backend.sanitizeForJsonValue (JsValue.vbool false) = JsValue.vbool false ∧
    Backend.sanitizeForJsonValue (JsValue.vstr []) = JsValue.vstr [] ∧
    Frontend.sanitizeForJsonValue JsValue.vnull = JsValue.vnull ∧
    Frontend.sanitizeForJsonValue JsValue.vundef = JsValue.vundef ∧
    Frontend.sanitizeForJsonValue (JsValue.vnum 123) = JsValue.vnum 123 ∧
    Frontend.sanitizeForJsonValue (JsValue.vbool true) = JsValue.vbool true ∧
    Frontend.sanitizeForJsonValue (JsValue.vbool false) = JsValue.vbool false ∧
    Frontend.sanitizeForJsonValue (JsValue.vstr []) = JsValue.vstr [] :=
  ⟨rfl, rfl, rfl, rfl, rfl, rfl, rfl, rfl, rfl, rfl, rfl, rfl⟩

/-! Runs of consecutive backslashes. -/

theorem step1_replicate92 : ∀ n, step1 (List.replicate n 92) = List.replicate n 92
  | 0 => rfl
  | 1 => rfl
  | n + 2 => by
    show step1 (92 :: 92 :: List.replicate n 92) = _
    rw [step1_92_ne117 (by decide), ← List.replicate_succ, step1_replicate92 (n + 1)]
    rfl

theorem step2_replicate92 : ∀ n, step2 (List.replicate (n + 1) 92) = List.replicate (n + 2) 92
  | 0 => rfl
  | n + 1 => by
    show step2 (92 :: 92 :: List.replicate n 92) = _
    rw [step2_92_92, ← List.replicate_succ, step2_replicate92 n]
    rfl

theorem escBackslashes_replicate92 :
    ∀ n, escBackslashes (List.replicate n 92) = List.replicate (2 * n) 92
  | 0 => rfl
  | n + 1 => by
    show escBackslashes (92 :: List.replicate n 92) = _
    rw [escBackslashes_cons_92, escBackslashes_replicate92 n]
    have : 2 * (n + 1) = 2 * n + 2 := by omega
    rw [this]
    rfl

theorem escCtrl_replicate92 (m : Nat) : escCtrl (List.replicate m 92) = List.replicate m 92 :=
  escCtrl_id fun c hc => by rw [List.eq_of_mem_replicate hc]; decide

/-- C10: on an input of n consecutive backslashes and nothing else, the
frontend variant produces n + 1 backslashes (only the final backslash of the
run, the one whose negative lookahead succeeds, is doubled), while the
backend variant produces 2n backslashes. -/
theorem c10_backslash_runs :
    ∀ n : Nat, 1 ≤ n →
      Frontend.sanitizeForJson (List.replicate n 92) = List.replicate (n + 1) 92 ∧
      Backend.sanitizeForJson (List.replicate n 92) = List.replicate (2 * n) 92 := by
  intro n hn
  obtain ⟨m, rfl⟩ : ∃ m, n = m + 1 := ⟨n - 1, by omega⟩
  constructor
  · unfold Frontend.sanitizeForJson
    rw [step1_replicate92, step2_replicate92, escCtrl_replicate92]
  · unfold Backend.sanitizeForJson
    rw [escBackslashes_replicate92, escCtrl_replicate92]

theorem c10_backslash_runs_witness :
    1 ≤ 2 ∧
    (Frontend.sanitizeForJson (List.replicate 2 92) = List.replicate 3 92 ∧
      Backend.sanitizeForJson (List.replicate 2 92) = List.replicate 4 92) :=
  ⟨by decide, c10_backslash_runs 2 (by decide)⟩

/-! The JSON-safety predicate on sanitizer output. -/

theorem jsonSafe_cons_ne {c : Nat} (h : c ≠ 92) (t : List Nat) :
    jsonSafe (c :: t) = (!isCtrl c && jsonSafe t) := by
  rw [jsonSafe.eq_def]
  simp [h]

theorem jsonSafe_92_92 (t : List Nat) : jsonSafe (92 :: 92 :: t) = jsonSafe t := by
  rw [jsonSafe.eq_def]
  simp

theorem jsonSafe_92u (a b d e : Nat) (t : List Nat) :
    jsonSafe (92 :: 117 :: a :: b :: d :: e :: t) =
      (isHex a && isHex b && isHex d && isHex e && jsonSafe t) := by
  rw [jsonSafe.eq_def]
  simp

theorem backend_jsonSafe (s : List Nat) : jsonSafe (Backend.sanitizeForJson s) = true := by
  unfold Backend.sanitizeForJson
  induction s with
  | nil => rfl
  | cons c t ih =>
    by_cases hc : c = 92
    · subst hc
      rw [escBackslashes_cons_92, escCtrl_cons_not _ isCtrl_92, escCtrl_cons_not _ isCtrl_92,
        jsonSafe_92_92]
      exact ih
    · rw [escBackslashes_cons_ne _ hc]
      cases hct : isCtrl c with
      | true =>
        rw [escCtrl_cons_ctrl _ hct]
        have h160 := isCtrl_lt160 hct
        rw [hex4_lt256 (show c < 256 by omega)]
        simp only [List.cons_append, List.nil_append]
        rw [jsonSafe_92u, ih]
        simp [toHexDigit_isHex (show c / 16 < 16 by omega),
          toHexDigit_isHex (show c % 16 < 16 by omega),
          (by decide : isHex 48 = true)]
      | false =>
        rw [escCtrl_cons_not _ hct, jsonSafe_cons_ne hc, hct, ih]
        rfl

/-- C1: the backend variant always produces JSON-safe output, but the
frontend variant does not: on the six-character malformed escape
backslash-u-Z-Z-Z-Z its output is three backslashes then uZZZZ, whose third
backslash starts a malformed escape again, although the doc comment and the
test suite of that variant promise the safe doubled form. -/
theorem c1_backend_safe_frontend_unsafe :
    (∀ s : List Nat, jsonSafe (Backend.sanitizeForJson s) = true) ∧
    Frontend.sanitizeForJson [92, 117, 90, 90, 90, 90] = [92, 92, 92, 117, 90, 90, 90, 90] ∧
    jsonSafe [92, 92, 92, 117, 90, 90, 90, 90] = false :=
  ⟨backend_jsonSafe, by decide, by decide⟩

/-- C3: the backend variant rewrites character by character, doubling every
backslash uniformly (including runs and well-formed escape-looking text);
the frontend variant breaks this on a run of two backslashes, producing
three backslashes where its own test expects four. -/
theorem c3_backend_uniform_frontend_run :
    (∀ s : List Nat, Backend.sanitizeForJson s =
      s.flatMap fun c =>
        if c = 92 then [92, 92] else if isCtrl c then 92 :: 117 :: hex4 c else [c]) ∧
    Backend.sanitizeForJson [92, 92] = [92, 92, 92, 92] ∧
    Backend.sanitizeForJson [92, 117, 48, 48, 52, 49] = [92, 92, 117, 48, 48, 52, 49] ∧
    Frontend.sanitizeForJson [92, 92] = [92, 92, 92] ∧
    Frontend.sanitizeForJson [92, 92] ≠ [92, 92, 92, 92] := by
  refine ⟨?_, by decide, by decide, by decide, by decide⟩
  intro s
  unfold Backend.sanitizeForJson
  induction s with
  | nil => rfl
  | cons c t ih =>
    by_cases hc : c = 92
    · subst hc
      rw [escBackslashes_cons_92, escCtrl_cons_not _ isCtrl_92, escCtrl_cons_not _ isCtrl_92, ih]
      simp
    · cases hct : isCtrl c with
      | true =>
        rw [escBackslashes_cons_ne _ hc, escCtrl_cons_ctrl _ hct, ih]
        simp [hc, hct]
      | false =>
        rw [escBackslashes_cons_ne _ hc, escCtrl_cons_not _ hct, ih]
        simp [hc, hct]

/-! Occurrence-local behavior of the backend on backslash-u pairs. -/

theorem escBackslashes_nil : escBackslashes [] = [] := rfl

theorem escCtrl_nil : escCtrl [] = [] := rfl

theorem backend_split_u (pre post : List Nat) :
    Backend.sanitizeForJson (pre ++ 92 :: 117 :: post) =
      Backend.sanitizeForJson pre ++ 92 :: 92 :: 117 :: Backend.sanitizeForJson post := by
  unfold Backend.sanitizeForJson
  rw [show pre ++ 92 :: 117 :: post = pre ++ [92, 117] ++ post by simp,
    escBackslashes_append, escBackslashes_append, escCtrl_append, escCtrl_append,
    show escBackslashes [92, 117] = [92, 92, 117] by rfl,
    show escCtrl [92, 92, 117] = [92, 92, 117] by rfl]
  simp

/-- C2: corrected form.  The backend renders every backslash-u occurrence
(malformed ones included) as two backslashes, u, then the sanitized
remainder; the frontend renders a malformed occurrence with three
backslashes; on the name Jose-acute backslash-uZZZZ space Garcia-acute both
keep the surrounding letters byte-identical. -/
theorem c2_amended :
    (∀ pre post : List Nat,
      Backend.sanitizeForJson (pre ++ 92 :: 117 :: post) =
        Backend.sanitizeForJson pre ++ 92 :: 92 :: 117 :: Backend.sanitizeForJson post) ∧
    Backend.sanitizeForJson
        [74, 111, 115, 233, 92, 117, 90, 90, 90, 90, 32, 71, 97, 114, 99, 237, 97] =
      [74, 111, 115, 233, 92, 92, 117, 90, 90, 90, 90, 32, 71, 97, 114, 99, 237, 97] ∧
    Frontend.sanitizeForJson
        [74, 111, 115, 233, 92, 117, 90, 90, 90, 90, 32, 71, 97, 114, 99, 237, 97] =
      [74, 111, 115, 233, 92, 92, 92, 117, 90, 90, 90, 90, 32, 71, 97, 114, 99, 237, 97] :=
  ⟨backend_split_u, by decide, by decide⟩

/-- C2 as frozen is false: neither variant turns the malformed escape
backslash-uZZZZ into four backslashes followed by uZZZZ; the backend yields
two backslashes, the frontend three. -/
theorem c2_counterexample :
    Backend.sanitizeForJson [92, 117, 90, 90, 90, 90] = [92, 92, 117, 90, 90, 90, 90] ∧
    Frontend.sanitizeForJson [92, 117, 90, 90, 90, 90] = [92, 92, 92, 117, 90, 90, 90, 90] ∧
    Backend.sanitizeForJson [92, 117, 90, 90, 90, 90] ≠
      [92, 92, 92, 92, 117, 90, 90, 90, 90] ∧
    Frontend.sanitizeForJson [92, 117, 90, 90, 90, 90] ≠
      [92, 92, 92, 92, 117, 90, 90, 90, 90] := by
  refine ⟨by decide, by decide, by decide, by decide⟩

/-! Occurrence-local behavior of both variants on control characters. -/

theorem backend_split_ctrl {c : Nat} (hctrl : isCtrl c = true) (pre post : List Nat) :
    Backend.sanitizeForJson (pre ++ c :: post) =
      Backend.sanitizeForJson pre ++ 92 :: 117 :: hex4 c ++ Backend.sanitizeForJson post := by
  unfold Backend.sanitizeForJson
  rw [show pre ++ c :: post = pre ++ [c] ++ post by simp,
    escBackslashes_append, escBackslashes_append,
    escCtrl_append, escCtrl_append,
    escBackslashes_cons_ne _ (isCtrl_ne92 hctrl), escBackslashes_nil,
    escCtrl_cons_ctrl _ hctrl, escCtrl_nil]
  simp

theorem frontend_split_ctrl {c : Nat} (hctrl : isCtrl c = true) (pre post : List Nat) :
    Frontend.sanitizeForJson (pre ++ c :: post) =
      Frontend.sanitizeForJson pre ++ 92 :: 117 :: hex4 c ++ Frontend.sanitizeForJson post := by
  unfold Frontend.sanitizeForJson
  rw [step1_split (isCtrl_ne92 hctrl) (isCtrl_ne117 hctrl) (isCtrl_not_hex hctrl),
    step2_split (isCtrl_ne92 hctrl),
    show step2 (step1 pre) ++ c :: step2 (step1 post) =
      step2 (step1 pre) ++ [c] ++ step2 (step1 post) by simp,
    escCtrl_append, escCtrl_append, escCtrl_cons_ctrl _ hctrl, escCtrl_nil]
  simp

/-- C5: corrected form.  Both variants replace each control-character
occurrence, in place, by backslash, u and its four-digit lowercase
zero-padded hex rendering (newline 000a, tab 0009, NUL 0000, DEL 007f), and
leave every code point outside the two control ranges other than the
backslash unchanged: a string with no backslash and no control character is
returned identically, while backslashes themselves are rewritten by the
escaping steps. -/
theorem c5_amended :
    (∀ (c : Nat) (pre post : List Nat), isCtrl c = true →
      Backend.sanitizeForJson (pre ++ c :: post) =
        Backend.sanitizeForJson pre ++ 92 :: 117 :: hex4 c ++ Backend.sanitizeForJson post ∧
      Frontend.sanitizeForJson (pre ++ c :: post) =
        Frontend.sanitizeForJson pre ++ 92 :: 117 :: hex4 c ++ Frontend.sanitizeForJson post) ∧
    hex4 10 = [48, 48, 48, 97] ∧
    hex4 9 = [48, 48, 48, 57] ∧
    hex4 0 = [48, 48, 48, 48] ∧
    hex4 127 = [48, 48, 55, 102] ∧
    (∀ s : List Nat, (∀ c ∈ s, c ≠ 92 ∧ isCtrl c = false) →
      Backend.sanitizeForJson s = s ∧ Frontend.sanitizeForJson s = s) :=
  ⟨fun c pre post h => ⟨backend_split_ctrl h pre post, frontend_split_ctrl h pre post⟩,
    by decide, by decide, by decide, by decide,
    fun _ h => ⟨backend_id h, frontend_id h⟩⟩

theorem c5_amended_witness :
    (isCtrl 10 = true ∧
      (Backend.sanitizeForJson ([97] ++ 10 :: [98]) =
          Backend.sanitizeForJson [97] ++ 92 :: 117 :: hex4 10 ++ Backend.sanitizeForJson [98] ∧
        Frontend.sanitizeForJson ([97] ++ 10 :: [98]) =
          Frontend.sanitizeForJson [97] ++ 92 :: 117 :: hex4 10 ++
            Frontend.sanitizeForJson [98])) ∧
    ((∀ c ∈ ([20013] : List Nat), c ≠ 92 ∧ isCtrl c = false) ∧
      (Backend.sanitizeForJson [20013] = [20013] ∧ Frontend.sanitizeForJson [20013] = [20013])) :=
  ⟨⟨by decide, c5_amended.1 10 [97] [98] (by decide)⟩,
    ⟨by decide, c5_amended.2.2.2.2.2 [20013] (by decide)⟩⟩

/-- C5 as frozen is false: the backslash lies outside both control ranges
yet sanitizeForJson does not leave it unchanged in place; both variants turn
the one-character string backslash into two backslashes. -/
theorem c5_counterexample :
    Backend.sanitizeForJson [92] = [92, 92] ∧
    Frontend.sanitizeForJson [92] = [92, 92] ∧
    ([92, 92] : List Nat) ≠ [92] := by
  refine ⟨by decide, by decide, by decide⟩

/-- C7: corrected form.  The first rewrite step of the frontend does treat a
well-formed backslash-u-4-hex sequence as already safe (it inserts no extra
backslash there, while it does for malformed sequences), but its second step
doubles that backslash anyway, so on the lone well-formed sequence
backslash-u0041 the two variants agree; the two functions do disagree
elsewhere, for example on the malformed sequence backslash-uZZZZ, where the
backend yields two backslashes and the frontend three. -/
theorem c7_amended :
    (∀ t : List Nat, fourHexAfter t = true →
      step1 (92 :: 117 :: t) = 92 :: 117 :: step1 t) ∧
    (∀ t : List Nat, fourHexAfter t = false →
      step1 (92 :: 117 :: t) = 92 :: 92 :: 117 :: step1 t) ∧
    Frontend.sanitizeForJson [92, 117, 48, 48, 52, 49] =
      Backend.sanitizeForJson [92, 117, 48, 48, 52, 49] ∧
    Frontend.sanitizeForJson [92, 117, 90, 90, 90, 90] = [92, 92, 92, 117, 90, 90, 90, 90] ∧
    Backend.sanitizeForJson [92, 117, 90, 90, 90, 90] = [92, 92, 117, 90, 90, 90, 90] ∧
    Frontend.sanitizeForJson [92, 117, 90, 90, 90, 90] ≠
      Backend.sanitizeForJson [92, 117, 90, 90, 90, 90] :=
  ⟨fun _ h => step1_92u_hex h, fun _ h => step1_92u_not h,
    by decide, by decide, by decide, by decide⟩

theorem c7_amended_witness :
    (fourHexAfter [48, 48, 52, 49] = true ∧
      step1 [92, 117, 48, 48, 52, 49] = 92 :: 117 :: step1 [48, 48, 52, 49]) ∧
    (fourHexAfter [90, 90, 90, 90] = false ∧
      step1 [92, 117, 90, 90, 90, 90] = 92 :: 92 :: 117 :: step1 [90, 90, 90, 90]) :=
  ⟨⟨by decide, c7_amended.1 [48, 48, 52, 49] (by decide)⟩,
    ⟨by decide, c7_amended.2.1 [90, 90, 90, 90] (by decide)⟩⟩

/-- C7 as frozen is false: the frontend variant does not preserve the
backslash of a well-formed escape undoubled; on the literal text
backslash-u0041 it produces the doubled form, identical to the backend. -/
theorem c7_counterexample :
    Frontend.sanitizeForJson [92, 117, 48, 48, 52, 49] = [92, 92, 117, 48, 48, 52, 49] ∧
    Backend.sanitizeForJson [92, 117, 48, 48, 52, 49] = [92, 92, 117, 48, 48, 52, 49] := by
  refine ⟨by decide, by decide⟩

/-! The structured sanitizer preserves shape. -/

theorem sanitizeArray_map (f : List Nat → List Nat) :
    ∀ l : List JsValue, sanitizeArray f l = l.map (sanitizeObjectForJson f)
  | [] => rfl
  | v :: rest => by
    rw [sanitizeArray, List.map_cons, sanitizeArray_map f rest]

theorem sanitizeEntries_map (f : List Nat → List Nat) :
    ∀ kvs : List (List Nat × JsValue),
      sanitizeEntries f kvs = kvs.map fun kv => (kv.1, sanitizeObjectForJson f kv.2)
  | [] => rfl
  | (k, v) :: rest => by
    cases v <;>
      simp [sanitizeEntries, sanitizeObjectForJson, sanitizeEntries_map f rest]

/-- C6: the structured sanitizer returns a structurally identical value:
arrays map elementwise in order with length preserved, objects keep the
identical key list with values recursively sanitized and keys never
sanitized, string leaves go through the scalar sanitizer, non-string leaves
are returned unchanged, and empty arrays and objects map to themselves. -/
theorem c6_structural :
    (∀ (f : List Nat → List Nat) (l : List JsValue),
      sanitizeObjectForJson f (JsValue.varr l) =
        JsValue.varr (l.map (sanitizeObjectForJson f))) ∧
    (∀ (f : List Nat → List Nat) (l : List JsValue),
      (l.map (sanitizeObjectForJson f)).length = l.length) ∧
    (∀ (f : List Nat → List Nat) (kvs : List (List Nat × JsValue)),
      sanitizeObjectForJson f (JsValue.vobj kvs) =
        JsValue.vobj (kvs.map fun kv => (kv.1, sanitizeObjectForJson f kv.2))) ∧
    (∀ (f : List Nat → List Nat) (kvs : List (List Nat × JsValue)),
      (sanitizeEntries f kvs).map Prod.fst = kvs.map Prod.fst) ∧
    (∀ s : List Nat, sanitizeObjectForJson Backend.sanitizeForJson (JsValue.vstr s) =
      JsValue.vstr (Backend.sanitizeForJson s)) ∧
    (∀ s : List Nat, sanitizeObjectForJson Frontend.sanitizeForJson (JsValue.vstr s) =
      JsValue.vstr (Frontend.sanitizeForJson s)) ∧
    (∀ (f : List Nat → List Nat) (n : Int),
      sanitizeObjectForJson f (JsValue.vnum n) = JsValue.vnum n) ∧
    (∀ (f : List Nat → List Nat) (b : Bool),
      sanitizeObjectForJson f (JsValue.vbool b) = JsValue.vbool b) ∧
    (∀ f : List Nat → List Nat, sanitizeObjectForJson f JsValue.vnull = JsValue.vnull) ∧
    (∀ f : List Nat → List Nat, sanitizeObjectForJson f JsValue.vundef = JsValue.vundef) ∧
    (∀ f : List Nat → List Nat,
      sanitizeObjectForJson f (JsValue.varr []) = JsValue.varr []) ∧
    (∀ f : List Nat → List Nat,
      sanitizeObjectForJson f (JsValue.vobj []) = JsValue.vobj []) := by
  refine ⟨?_, ?_, ?_, ?_, ?_, ?_, ?_, ?_, ?_, ?_, ?_, ?_⟩
  · intro f l
    rw [sanitizeObjectForJson, sanitizeArray_map]
  · intro f l
    exact List.length_map l _
  · intro f kvs
    rw [sanitizeObjectForJson, sanitizeEntries_map]
  · intro f kvs
    rw [sanitizeEntries_map]
    simp
  · intro s; rfl
  · intro s; rfl
  · intro f n; rfl
  · intro f b; rfl
  · intro f; rfl
  · intro f; rfl
  · intro f; rfl
  · intro f; rfl

